import Mathlib

/-!
# Verification of the `cs377-final-project` flat-file filesystem

Shallow embedding of the filesystem engine in `src/lib.rs` (module `myfs`,
the library crate used by `main.rs`; `src/myfs.rs` is an orphaned earlier
draft of the same module — it is not declared in any module tree, but the
variant behaviours the claims reference are embedded separately below).

The virtual disk is modelled as an unbounded byte-addressable store
`Nat → Nat` (offset ↦ byte value); every engine operation is a pure
function from disk states to disk states, mirroring the seek/read/write
sequences of the source.  Rust `Result<_, String>` becomes
`Except String _`; a Rust panic (out-of-bounds array index, failed
`unwrap`) becomes an outer `Option` returning `none`.
-/

set_option autoImplicit false
set_option maxRecDepth 8000

namespace MyFs

/-- Constant `BLOCK_SIZE` from `src/lib.rs`. -/
def BLOCK_SIZE : Nat := 1024

/-- Constant `FREE_BLOCK_SIZE` from `src/lib.rs`. -/
def FREE_BLOCK_SIZE : Nat := 128

/-- Constant `MAX_INODES` from `src/lib.rs`. -/
def MAX_INODES : Nat := 16

/-- Constant `IDXNODE_SIZE = size_of::<IDXNode>()` for the `#[repr(C)]` struct in
`src/lib.rs`: `name: [u8; 8]` at offset 0, `size: u8` at offset 8,
3 bytes padding, `block_pointers: [u32; 8]` at offset 12, `used: u8` at
offset 44, 3 bytes tail padding — total 48. -/
def IDXNODE_SIZE : Nat := 48

/-- The `IDXNode` record of `src/lib.rs`.  `name` is the 8-byte filename
buffer, `size` the block count (u8), `block_pointers` the eight u32
pointer entries, `used` the validity flag (u8).  Fields are `Nat`-valued
lists/naturals; decoders always produce in-range values and length-8
lists. -/
structure IDXNode where
  name : List Nat
  size : Nat
  block_pointers : List Nat
  used : Nat
  deriving DecidableEq

/-- A disk state: byte value at every absolute offset. -/
def Disk : Type := Nat → Nat

/-- Read `n` consecutive bytes starting at absolute offset `off`
(`seek(Start(off))` followed by `read` of an `n`-byte buffer). -/
def readBytes (d : Disk) (off n : Nat) : List Nat :=
  (List.range n).map fun k => d (off + k)

/-- Overwrite the `n` bytes at absolute offset `off` with `data`
(`seek` followed by `write`).  At every call site `n = data.length`,
matching the fixed-size Rust buffers. -/
def writeBytes (d : Disk) (off n : Nat) (data : List Nat) : Disk :=
  fun a => if off ≤ a ∧ a - off < n then data.getD (a - off) 0 else d a

/-- Byte `n` of the `transmute::<IDXNode, [u8; 48]>` image of an inode,
following the `#[repr(C)]` layout.  The padding bytes (9–11 and 45–47)
are unspecified by the source transmute and never read back by the
decoder; we fix them to 0. -/
def encByte (ino : IDXNode) (n : Nat) : Nat :=
  if n < 8 then ino.name.getD n 0 % 256
  else if n = 8 then ino.size % 256
  else if n < 12 then 0
  else if n < 44 then ino.block_pointers.getD ((n - 12) / 4) 0 / 256 ^ ((n - 12) % 4) % 256
  else if n = 44 then ino.used % 256
  else 0

/-- Encoder `transmute::<IDXNode, [u8; 48]>` from `write_inode` in `src/lib.rs`. -/
def encodeInode (ino : IDXNode) : List Nat :=
  (List.range IDXNODE_SIZE).map (encByte ino)

/-- Decoder `transmute::<[u8; 48], IDXNode>` from `get_inode` in `src/lib.rs`
(little-endian u32 block pointers, per the x86-64 target of the crate). -/
def decodeInode (b : List Nat) : IDXNode where
  name := b.take 8
  size := b.getD 8 0
  block_pointers := (List.range 8).map fun j =>
    b.getD (12 + 4 * j) 0 + 256 * b.getD (13 + 4 * j) 0 +
      65536 * b.getD (14 + 4 * j) 0 + 16777216 * b.getD (15 + 4 * j) 0
  used := b.getD 44 0

/-- Source `get_free_block_list`: the 128 flag bytes at offset 0. -/
def getFreeBlockList (d : Disk) : List Nat :=
  readBytes d 0 FREE_BLOCK_SIZE

/-- Source `write_free_block_list`: store the full 128-byte flag array at offset 0. -/
def writeFreeBlockList (d : Disk) (fbl : List Nat) : Disk :=
  writeBytes d 0 FREE_BLOCK_SIZE fbl

/-- Source `get_inode(i)`: decode the 48-byte record at offset `128 + 48*i`. -/
def getInode (d : Disk) (i : Nat) : IDXNode :=
  decodeInode (readBytes d (FREE_BLOCK_SIZE + IDXNODE_SIZE * i) IDXNODE_SIZE)

/-- Source `write_inode` persisted at slot `i`.  In the source the slot is
implicit: `write_inode` seeks `Current(-48)` from the cursor left by the
inode scan, which is exactly the start of the slot the scan returned. -/
def writeInodeAt (d : Disk) (i : Nat) (ino : IDXNode) : Disk :=
  writeBytes d (FREE_BLOCK_SIZE + IDXNODE_SIZE * i) IDXNODE_SIZE (encodeInode ino)

/-- The ascending scan of `get_first_inode_conditional_on`, from slot `k`,
with `fuel` the number of loop iterations still possible (structural
recursion on `fuel` so the scan computes by kernel reduction; the fuel is
always instantiated with `MAX_INODES - k`, the exact remaining count). -/
def findInodeGo (d : Disk) (f : IDXNode → Bool) : Nat → Nat → Option (Nat × IDXNode)
  | _, 0 => none
  | k, fuel + 1 =>
    if k < MAX_INODES then
      if f (getInode d k) then some (k, getInode d k) else findInodeGo d f (k + 1) fuel
    else none

/-- The ascending scan of `get_first_inode_conditional_on`, from slot `k`.
Returns the slot index together with the decoded record (the source
returns only the record; the index is encoded in its cursor position). -/
def findInodeFrom (d : Disk) (f : IDXNode → Bool) (k : Nat) : Option (Nat × IDXNode) :=
  findInodeGo d f k (MAX_INODES - k)

/-- Unfolding lemma: `findInodeFrom` satisfies the loop equation of the source scan. -/
theorem findInodeFrom_eq (d : Disk) (f : IDXNode → Bool) (k : Nat) :
    findInodeFrom d f k =
      if k < MAX_INODES then
        if f (getInode d k) then some (k, getInode d k) else findInodeFrom d f (k + 1)
      else none := by
  unfold findInodeFrom
  cases h : MAX_INODES - k with
  | zero =>
    rw [if_neg (by omega)]
    rfl
  | succ m =>
    have hm : MAX_INODES - (k + 1) = m := by omega
    rw [hm]
    simp only [findInodeGo]

/-- Source `get_first_inode_conditional_on(f)` from `src/lib.rs`. -/
def findInode (d : Disk) (f : IDXNode → Bool) : Option (Nat × IDXNode) :=
  findInodeFrom d f 0

/-- The closure `|i| i.used == 0` passed by `create_file`. -/
def usedIsZero : IDXNode → Bool := fun i => i.used == 0

/-- The closure `|x| x.name == filename` passed by `delete_file`, `read`
and `write`. -/
def nameMatches (filename : List Nat) : IDXNode → Bool := fun x => x.name == filename

/-- The error string of `get_first_inode_conditional_on`. -/
def errNoFind : String :=
  "Could not find inode meeting condition"

/-- The `InvalidSize` error string of `create_file`. -/
def errInvalidSize (size : Nat) : String :=
  "Max blocks per file is 8, not " ++ toString size

/-- The `InsufficientSpace` error string of `create_file`. -/
def errNoSpace : String :=
  "Not enough free blocks"

/-- The `OutOfRange` error string of `read`. -/
def errOutOfRange (block_num size : Nat) : String :=
  "block_num: " ++ toString block_num ++ " exceeds capacity of inode.size: " ++ toString size

/-- The free-block count: `free_block_list.iter().fold(0, |acc, &x| if x == 0 { acc + 1 } else { acc })`. -/
def countFree (fbl : List Nat) : Nat :=
  fbl.foldl (fun acc x => if x = 0 then acc + 1 else acc) 0

/-- The body of the block-allocation `while` loop of `create_file`, with
`fuel` the number of remaining scan positions (structural recursion;
always instantiated with `FREE_BLOCK_SIZE - i`). -/
def allocGo : Nat → List Nat → List Nat → Nat → Nat → Nat → List Nat × List Nat
  | 0, fbl, ptrs, _, _, _ => (fbl, ptrs)
  | fuel + 1, fbl, ptrs, i, alloc, size =>
    if i < FREE_BLOCK_SIZE ∧ alloc < size then
      if fbl.getD i 1 = 0 then
        allocGo fuel (fbl.set i 1) (ptrs.set alloc i) (i + 1) (alloc + 1) size
      else
        allocGo fuel fbl ptrs (i + 1) alloc size
    else (fbl, ptrs)

/-- The block-allocation `while` loop of `create_file`: scan the flag
array ascending from index `i`; each free index is marked allocated and
recorded at position `alloc` of the pointer array, until `size` blocks
are collected or index 128 is reached. -/
def allocLoop (fbl ptrs : List Nat) (i alloc size : Nat) : List Nat × List Nat :=
  allocGo (FREE_BLOCK_SIZE - i) fbl ptrs i alloc size

/-- Unfolding lemma: `allocLoop` satisfies the loop equation of the source `while` loop. -/
theorem allocLoop_eq (fbl ptrs : List Nat) (i alloc size : Nat) :
    allocLoop fbl ptrs i alloc size =
      if i < FREE_BLOCK_SIZE ∧ alloc < size then
        if fbl.getD i 1 = 0 then
          allocLoop (fbl.set i 1) (ptrs.set alloc i) (i + 1) (alloc + 1) size
        else
          allocLoop fbl ptrs (i + 1) alloc size
      else (fbl, ptrs) := by
  unfold allocLoop
  cases h : FREE_BLOCK_SIZE - i with
  | zero =>
    rw [if_neg (by omega)]
    rfl
  | succ m =>
    have hm : FREE_BLOCK_SIZE - (i + 1) = m := by omega
    rw [hm]
    simp only [allocGo]

/-- Source `create_file` from `src/lib.rs` (the compiled library): size check,
then free-space check, then inode-slot scan, then allocation, then the
two persists (inode record first, free block list second). -/
def create_file (d : Disk) (filename : List Nat) (size : Nat) : Except String Disk :=
  if size > 8 then .error (errInvalidSize size)
  else
    let fbl := getFreeBlockList d
    if countFree fbl < size then .error errNoSpace
    else
      match findInode d usedIsZero with
      | none => .error errNoFind
      | some (idx, ino) =>
        let r := allocLoop fbl ino.block_pointers 0 0 size
        .ok (writeFreeBlockList
          (writeInodeAt d idx ⟨filename, size, r.2, 1⟩) r.1)

/-- The body of the flag-clearing `for` loop of `delete_file`, with
`fuel` the number of remaining iterations (structural recursion; always
instantiated with `n - i`). -/
def clearGo : Nat → List Nat → List Nat → Nat → Nat → Option (List Nat)
  | 0, fbl, _, _, _ => some fbl
  | fuel + 1, fbl, ptrs, i, n =>
    if i < n then
      if i < 8 then
        let p := ptrs.getD i 0
        if p < FREE_BLOCK_SIZE then clearGo fuel (fbl.set p 0) ptrs (i + 1) n else none
      else none
    else some fbl

/-- The flag-clearing `for` loop of `delete_file`:
`for i in 0..inode.size { free_block_list[block_pointers[i]] = 0 }`.
Indexing `block_pointers` (a `[u32; 8]`) with `i ≥ 8`, or the 128-entry
flag array with a pointer `≥ 128`, panics — modelled as `none`. -/
def clearLoop (fbl ptrs : List Nat) (i n : Nat) : Option (List Nat) :=
  clearGo (n - i) fbl ptrs i n

/-- Unfolding lemma: `clearLoop` satisfies the loop equation of the source `for` loop. -/
theorem clearLoop_eq (fbl ptrs : List Nat) (i n : Nat) :
    clearLoop fbl ptrs i n =
      if i < n then
        if i < 8 then
          let p := ptrs.getD i 0
          if p < FREE_BLOCK_SIZE then clearLoop (fbl.set p 0) ptrs (i + 1) n else none
        else none
      else some fbl := by
  unfold clearLoop
  cases h : n - i with
  | zero =>
    rw [if_neg (by omega)]
    rfl
  | succ m =>
    have hm : n - (i + 1) = m := by omega
    rw [hm]
    simp only [clearGo]

/-- Source `delete_file` from `src/lib.rs`.  Note the lookup predicate is
`x.name == filename` — the `used` flag is not consulted, so a stale
(unused) record with a matching name is found first. -/
def delete_file (d : Disk) (filename : List Nat) : Option (Except String Disk) :=
  let fbl := getFreeBlockList d
  match findInode d (nameMatches filename) with
  | none => some (.error errNoFind)
  | some (idx, ino) =>
    match clearLoop fbl ino.block_pointers 0 ino.size with
    | none => none
    | some fbl' =>
      some (.ok (writeFreeBlockList (writeInodeAt d idx ⟨ino.name, ino.size, ino.block_pointers, 0⟩) fbl'))

/-- The absolute byte offset `read` and `write` seek to for a block
pointer value `b`: `(FREE_BLOCK_SIZE + BLOCK_SIZE * block) as u64`. -/
def blockOffset (b : Nat) : Nat :=
  FREE_BLOCK_SIZE + BLOCK_SIZE * b

/-- Source `read` from `src/lib.rs`: name lookup, bound check against
`inode.size`, then a 1024-byte transfer from the resolved block.
Indexing `block_pointers` out of bounds (only reachable when
`block_num < inode.size` with a corrupt `size > 8`) panics (`none`). -/
def read (d : Disk) (filename : List Nat) (block_num : Nat) : Option (Except String (List Nat)) :=
  match findInode d (nameMatches filename) with
  | none => some (.error errNoFind)
  | some (_, ino) =>
    if ino.size ≤ block_num then some (.error (errOutOfRange block_num ino.size))
    else if block_num < 8 then
      some (.ok (readBytes d (blockOffset (ino.block_pointers.getD block_num 0)) BLOCK_SIZE))
    else none

/-- Source `write` from `src/lib.rs`: name lookup, then an unconditional
1024-byte transfer to `block_pointers[block_num]` — there is no bound
check against `inode.size`; `block_num ≥ 8` panics on the array index
(`none`). -/
def write (d : Disk) (filename : List Nat) (block_num : Nat) (buf : List Nat) :
    Option (Except String Disk) :=
  match findInode d (nameMatches filename) with
  | none => some (.error errNoFind)
  | some (_, ino) =>
    if block_num < 8 then
      some (.ok (writeBytes d (blockOffset (ino.block_pointers.getD block_num 0)) BLOCK_SIZE buf))
    else none

/-- Draft variant `read` of the orphaned `src/myfs.rs`: same name lookup but no
bound check at all; inner `Option` is the draft's return type, the outer
`Option` models the panic on `block_pointers[block_num]` with
`block_num ≥ 8`. -/
def myfsRead (d : Disk) (filename : List Nat) (block_num : Nat) : Option (Option (List Nat)) :=
  match findInode d (nameMatches filename) with
  | none => some none
  | some (_, ino) =>
    if block_num < 8 then
      some (some (readBytes d (blockOffset (ino.block_pointers.getD block_num 0)) BLOCK_SIZE))
    else none

/-- UTF-8 validity of a byte sequence, exactly the condition under which
Rust's `std::str::from_utf8` succeeds (RFC 3629: no overlongs, no
surrogates, nothing above U+10FFFF). -/
def validUtf8 : List Nat → Bool
  | [] => true
  | b :: l =>
    if b ≤ 0x7F then validUtf8 l
    else if 0xC2 ≤ b ∧ b ≤ 0xDF then
      match l with
      | c :: l2 => decide (0x80 ≤ c ∧ c ≤ 0xBF) && validUtf8 l2
      | [] => false
    else if 0xE0 ≤ b ∧ b ≤ 0xEF then
      match l with
      | c1 :: c2 :: l2 =>
        decide ((if b = 0xE0 then 0xA0 else 0x80) ≤ c1 ∧
            c1 ≤ (if b = 0xED then 0x9F else 0xBF)) &&
          decide (0x80 ≤ c2 ∧ c2 ≤ 0xBF) && validUtf8 l2
      | _ => false
    else if 0xF0 ≤ b ∧ b ≤ 0xF4 then
      match l with
      | c1 :: c2 :: c3 :: l2 =>
        decide ((if b = 0xF0 then 0x90 else 0x80) ≤ c1 ∧
            c1 ≤ (if b = 0xF4 then 0x8F else 0xBF)) &&
          decide (0x80 ≤ c2 ∧ c2 ≤ 0xBF) && decide (0x80 ≤ c3 ∧ c3 ≤ 0xBF) && validUtf8 l2
      | _ => false
    else false

/-- The body of the `ls` loop, with `fuel` the number of remaining slots
(structural recursion; always instantiated with `MAX_INODES - k`). -/
def lsGo (d : Disk) : Nat → Nat → Option (List (List Nat))
  | _, 0 => some []
  | k, fuel + 1 =>
    if k < MAX_INODES then
      let ino := getInode d k
      if ino.used = 1 then
        if validUtf8 ino.name then (lsGo d (k + 1) fuel).map (ino.name :: ·) else none
      else lsGo d (k + 1) fuel
    else some []

/-- Source `ls` from `src/lib.rs`, from slot `k`: print the name of every used
slot in ascending order; `from_utf8(..).unwrap()` panics (`none`) at the
first used slot whose name buffer is not valid UTF-8. -/
def lsFrom (d : Disk) (k : Nat) : Option (List (List Nat)) :=
  lsGo d k (MAX_INODES - k)

/-- Unfolding lemma: `lsFrom` satisfies the loop equation of the source `for` loop. -/
theorem lsFrom_eq (d : Disk) (k : Nat) :
    lsFrom d k =
      if k < MAX_INODES then
        let ino := getInode d k
        if ino.used = 1 then
          if validUtf8 ino.name then (lsFrom d (k + 1)).map (ino.name :: ·) else none
        else lsFrom d (k + 1)
      else some [] := by
  unfold lsFrom
  cases h : MAX_INODES - k with
  | zero =>
    rw [if_neg (by omega)]
    rfl
  | succ m =>
    have hm : MAX_INODES - (k + 1) = m := by omega
    rw [hm]
    simp only [lsGo]

/-- Result of `ls`: the sequence of names printed (or `none` on panic). -/
def ls (d : Disk) : Option (List (List Nat)) :=
  lsFrom d 0

/-- The names of the used slots in ascending slot order — the value the
spec says `list()` yields. -/
def usedNames (d : Disk) : List (List Nat) :=
  (List.range MAX_INODES).filterMap fun k =>
    if (getInode d k).used = 1 then some (getInode d k).name else none

/-- A freshly formatted image, as produced by `create_fs.rs`: all bytes
zero except byte 0 (the reserved leading free-list flag) set to 1. -/
def freshDisk : Disk :=
  fun a => if a = 0 then 1 else 0

/-! ## Byte-level lemmas -/

theorem writeBytes_apply_outside (d : Disk) (off n : Nat) (data : List Nat) (a : Nat)
    (h : a < off ∨ off + n ≤ a) : writeBytes d off n data a = d a := by
  unfold writeBytes
  rw [if_neg]
  omega

theorem writeBytes_apply_inside (d : Disk) (off n : Nat) (data : List Nat) (a : Nat)
    (h1 : off ≤ a) (h2 : a - off < n) : writeBytes d off n data a = data.getD (a - off) 0 := by
  unfold writeBytes
  rw [if_pos ⟨h1, h2⟩]

theorem readBytes_length (d : Disk) (off n : Nat) : (readBytes d off n).length = n := by
  simp [readBytes]

theorem readBytes_getElem (d : Disk) (off n j : Nat) (h : j < (readBytes d off n).length) :
    (readBytes d off n)[j] = d (off + j) := by
  simp [readBytes]

theorem readBytes_getD (d : Disk) (off n j dv : Nat) (h : j < n) :
    (readBytes d off n).getD j dv = d (off + j) := by
  rw [List.getD_eq_getElem _ _ (by rw [readBytes_length]; exact h), readBytes_getElem]

theorem readBytes_congr (d1 d2 : Disk) (off n : Nat)
    (h : ∀ a, off ≤ a → a < off + n → d1 a = d2 a) :
    readBytes d1 off n = readBytes d2 off n := by
  unfold readBytes
  apply List.map_congr_left
  intro k hk
  rw [List.mem_range] at hk
  exact h (off + k) (by omega) (by omega)

theorem readBytes_writeBytes (d : Disk) (off n : Nat) (data : List Nat)
    (h : data.length = n) : readBytes (writeBytes d off n data) off n = data := by
  apply List.ext_getElem
  · rw [readBytes_length, h]
  · intro j h1 h2
    rw [readBytes_length] at h1
    rw [readBytes_getElem, writeBytes_apply_inside _ _ _ _ _ (Nat.le_add_right _ _) (by omega)]
    have e : off + j - off = j := by omega
    rw [e, List.getD_eq_getElem _ _ (by omega)]

/-! ## Inode codec lemmas -/

theorem encodeInode_length (ino : IDXNode) : (encodeInode ino).length = 48 := by
  simp [encodeInode, IDXNODE_SIZE]

theorem encodeInode_getD (ino : IDXNode) (j : Nat) (h : j < 48) :
    (encodeInode ino).getD j 0 = encByte ino j := by
  rw [List.getD_eq_getElem _ _ (by rw [encodeInode_length]; exact h)]
  simp [encodeInode, IDXNODE_SIZE]

theorem decode_encode_used (ino : IDXNode) :
    (decodeInode (encodeInode ino)).used = ino.used % 256 := by
  show (encodeInode ino).getD 44 0 = ino.used % 256
  rw [encodeInode_getD _ 44 (by norm_num)]
  rfl

theorem decode_encode_size (ino : IDXNode) :
    (decodeInode (encodeInode ino)).size = ino.size % 256 := by
  show (encodeInode ino).getD 8 0 = ino.size % 256
  rw [encodeInode_getD _ 8 (by norm_num)]
  rfl

theorem decode_encode_name (ino : IDXNode) (h8 : ino.name.length = 8)
    (hb : ∀ b ∈ ino.name, b < 256) :
    (decodeInode (encodeInode ino)).name = ino.name := by
  show (encodeInode ino).take 8 = ino.name
  apply List.ext_getElem
  · rw [List.length_take, encodeInode_length, h8]
    norm_num
  · intro j hj1 hj2
    rw [List.length_take, encodeInode_length] at hj1
    have hj : j < 8 := by omega
    rw [List.getElem_take]
    rw [← List.getD_eq_getElem (encodeInode ino) 0 (by rw [encodeInode_length]; omega),
      encodeInode_getD _ j (by omega)]
    unfold encByte
    rw [if_pos hj, List.getD_eq_getElem _ _ (by omega),
      Nat.mod_eq_of_lt (hb _ (List.getElem_mem _))]

theorem decode_encode_ptr (ino : IDXNode) (j : Nat) (hj : j < 8)
    (hp : ino.block_pointers.getD j 0 < 4294967296) :
    (decodeInode (encodeInode ino)).block_pointers.getD j 0 = ino.block_pointers.getD j 0 := by
  have hlen : ((List.range 8).map fun j =>
      (encodeInode ino).getD (12 + 4 * j) 0 + 256 * (encodeInode ino).getD (13 + 4 * j) 0 +
        65536 * (encodeInode ino).getD (14 + 4 * j) 0 +
        16777216 * (encodeInode ino).getD (15 + 4 * j) 0).length = 8 := by
    simp
  show ((List.range 8).map fun j =>
      (encodeInode ino).getD (12 + 4 * j) 0 + 256 * (encodeInode ino).getD (13 + 4 * j) 0 +
        65536 * (encodeInode ino).getD (14 + 4 * j) 0 +
        16777216 * (encodeInode ino).getD (15 + 4 * j) 0).getD j 0 =
    ino.block_pointers.getD j 0
  rw [List.getD_eq_getElem _ _ (by rw [hlen]; exact hj)]
  rw [List.getElem_map, List.getElem_range]
  rw [encodeInode_getD _ _ (by omega), encodeInode_getD _ _ (by omega),
    encodeInode_getD _ _ (by omega), encodeInode_getD _ _ (by omega)]
  unfold encByte
  rw [if_neg (by omega), if_neg (by omega), if_neg (by omega), if_pos (by omega),
    if_neg (by omega), if_neg (by omega), if_neg (by omega), if_pos (by omega),
    if_neg (by omega), if_neg (by omega), if_neg (by omega), if_pos (by omega),
    if_neg (by omega), if_neg (by omega), if_neg (by omega), if_pos (by omega)]
  have e12a : (12 + 4 * j - 12) / 4 = j := by omega
  have e12b : (12 + 4 * j - 12) % 4 = 0 := by omega
  have e13a : (13 + 4 * j - 12) / 4 = j := by omega
  have e13b : (13 + 4 * j - 12) % 4 = 1 := by omega
  have e14a : (14 + 4 * j - 12) / 4 = j := by omega
  have e14b : (14 + 4 * j - 12) % 4 = 2 := by omega
  have e15a : (15 + 4 * j - 12) / 4 = j := by omega
  have e15b : (15 + 4 * j - 12) % 4 = 3 := by omega
  rw [e12a, e12b, e13a, e13b, e14a, e14b, e15a, e15b]
  generalize ino.block_pointers.getD j 0 = p at hp ⊢
  norm_num
  omega

/-! ## Inode-table access and scan lemmas -/

/-- Locality: `getInode` only looks at the 48 bytes of slot `k`. -/
theorem getInode_congr (d1 d2 : Disk) (k : Nat)
    (h : ∀ a, FREE_BLOCK_SIZE + IDXNODE_SIZE * k ≤ a →
      a < FREE_BLOCK_SIZE + IDXNODE_SIZE * k + IDXNODE_SIZE → d1 a = d2 a) :
    getInode d1 k = getInode d2 k := by
  unfold getInode
  rw [readBytes_congr d1 d2 _ _ h]

/-- A write whose range is disjoint from slot `k` leaves `getInode … k`
unchanged. -/
theorem getInode_writeBytes_disjoint (d : Disk) (off n : Nat) (data : List Nat) (k : Nat)
    (h : off + n ≤ FREE_BLOCK_SIZE + IDXNODE_SIZE * k ∨
      FREE_BLOCK_SIZE + IDXNODE_SIZE * k + IDXNODE_SIZE ≤ off) :
    getInode (writeBytes d off n data) k = getInode d k := by
  apply getInode_congr
  intro a h1 h2
  apply writeBytes_apply_outside
  omega

/-- Reading back the slot just written. -/
theorem getInode_writeInodeAt_self (d : Disk) (k : Nat) (ino : IDXNode) :
    getInode (writeInodeAt d k ino) k = decodeInode (encodeInode ino) := by
  unfold getInode writeInodeAt
  rw [readBytes_writeBytes _ _ _ _ (by rw [encodeInode_length]; rfl)]

/-- The inode scan only looks at the inode-table slots. -/
theorem findInodeFrom_congr (d1 d2 : Disk) (f : IDXNode → Bool) :
    ∀ m k, MAX_INODES - k = m →
      (∀ j, k ≤ j → j < MAX_INODES → getInode d1 j = getInode d2 j) →
      findInodeFrom d1 f k = findInodeFrom d2 f k := by
  intro m
  induction m with
  | zero =>
    intro k hk _
    rw [findInodeFrom_eq d1, findInodeFrom_eq d2, if_neg (by omega), if_neg (by omega)]
  | succ m ih =>
    intro k hk hj
    have hklt : k < MAX_INODES := by unfold MAX_INODES at *; omega
    rw [findInodeFrom_eq d1, findInodeFrom_eq d2, if_pos hklt, if_pos hklt, hj k le_rfl hklt]
    by_cases hf : f (getInode d2 k)
    · rw [if_pos hf, if_pos hf]
    · rw [if_neg hf, if_neg hf]
      exact ih (k + 1) (by omega) (fun j h1 h2 => hj j (by omega) h2)

theorem findInode_congr (d1 d2 : Disk) (f : IDXNode → Bool)
    (h : ∀ j, j < MAX_INODES → getInode d1 j = getInode d2 j) :
    findInode d1 f = findInode d2 f := by
  unfold findInode
  exact findInodeFrom_congr d1 d2 f MAX_INODES 0 rfl (fun j _ h2 => h j h2)

/-- What a successful scan tells us: the returned slot is in range, its
record satisfies the predicate, and every earlier slot fails it. -/
theorem findInodeFrom_some_elim (d : Disk) (f : IDXNode → Bool) :
    ∀ m k j ino, MAX_INODES - k = m → findInodeFrom d f k = some (j, ino) →
      k ≤ j ∧ j < MAX_INODES ∧ ino = getInode d j ∧ f ino = true ∧
        ∀ t, k ≤ t → t < j → f (getInode d t) = false := by
  intro m
  induction m with
  | zero =>
    intro k j ino hk h
    rw [findInodeFrom_eq, if_neg (by omega)] at h
    exact absurd h (by simp)
  | succ m ih =>
    intro k j ino hk h
    have hklt : k < MAX_INODES := by unfold MAX_INODES at *; omega
    rw [findInodeFrom_eq, if_pos hklt] at h
    by_cases hf : f (getInode d k)
    · rw [if_pos hf] at h
      have h1 : k = j ∧ getInode d k = ino := by
        have := Option.some.inj h
        exact ⟨(Prod.mk.injEq _ _ _ _ ▸ this).1, (Prod.mk.injEq _ _ _ _ ▸ this).2⟩
      obtain ⟨rfl, rfl⟩ := h1
      exact ⟨le_rfl, hklt, rfl, hf, fun t h1 h2 => absurd (lt_of_le_of_lt h1 h2) (lt_irrefl k)⟩
    · rw [if_neg hf] at h
      obtain ⟨ha, hb, hc, hd, he⟩ := ih (k + 1) j ino (by omega) h
      refine ⟨by omega, hb, hc, hd, fun t h1 h2 => ?_⟩
      rcases Nat.eq_or_lt_of_le h1 with rfl | h1'
      · exact Bool.not_eq_true _ ▸ hf
      · exact he t h1' h2

theorem findInode_some_elim (d : Disk) (f : IDXNode → Bool) (j : Nat) (ino : IDXNode)
    (h : findInode d f = some (j, ino)) :
    j < MAX_INODES ∧ ino = getInode d j ∧ f ino = true ∧
      ∀ t, t < j → f (getInode d t) = false := by
  obtain ⟨_, hb, hc, hd, he⟩ := findInodeFrom_some_elim d f MAX_INODES 0 j ino rfl h
  exact ⟨hb, hc, hd, fun t h2 => he t (Nat.zero_le t) h2⟩

/-- Introduction form: the first slot satisfying the predicate is found. -/
theorem findInodeFrom_some_intro (d : Disk) (f : IDXNode → Bool) :
    ∀ m k j, MAX_INODES - k = m → k ≤ j → j < MAX_INODES → f (getInode d j) = true →
      (∀ t, k ≤ t → t < j → f (getInode d t) = false) →
      findInodeFrom d f k = some (j, getInode d j) := by
  intro m
  induction m with
  | zero =>
    intro k j hk h1 h2 _ _
    omega
  | succ m ih =>
    intro k j hk h1 h2 h3 h4
    have hklt : k < MAX_INODES := by omega
    rw [findInodeFrom_eq, if_pos hklt]
    rcases Nat.eq_or_lt_of_le h1 with rfl | h1'
    · rw [if_pos h3]
    · rw [if_neg (by rw [h4 k le_rfl h1']; simp)]
      exact ih (k + 1) j (by omega) h1' h2 h3 (fun t ht1 ht2 => h4 t (by omega) ht2)

theorem findInode_some_intro (d : Disk) (f : IDXNode → Bool) (j : Nat)
    (h2 : j < MAX_INODES) (h3 : f (getInode d j) = true)
    (h4 : ∀ t, t < j → f (getInode d t) = false) :
    findInode d f = some (j, getInode d j) :=
  findInodeFrom_some_intro d f MAX_INODES 0 j rfl (Nat.zero_le j) h2 h3
    (fun t _ ht2 => h4 t ht2)

/-! ## List helper lemmas -/

theorem getD_set_self (l : List Nat) (i x d : Nat) (h : i < l.length) :
    (l.set i x).getD i d = x := by
  rw [List.getD_eq_getElem?_getD, List.getElem?_set, if_pos rfl, if_pos h]
  rfl

theorem getD_set_ne (l : List Nat) (i j x d : Nat) (h : i ≠ j) :
    (l.set i x).getD j d = l.getD j d := by
  rw [List.getD_eq_getElem?_getD, List.getElem?_set, if_neg h, ← List.getD_eq_getElem?_getD]

theorem drop_set_high (l : List Nat) (i x : Nat) :
    (l.set i x).drop (i + 1) = l.drop (i + 1) := by
  rw [List.drop_set, if_pos (by omega)]

/-! ## Allocation-loop specification -/

/-- Correctness of the `create_file` allocation loop, for an abstract
predicate `P` preserved by the only mutation the loop performs (marking
free entries allocated): if enough zero flags remain from index `i` on,
the loop fills every pointer position in `[alloc, size)` with an index
that is `< 128`, is `≥ i`, and satisfied `P`; positions below `alloc`
are untouched. -/
theorem allocLoop_spec (P : Nat → Prop) :
    ∀ m fbl ptrs i alloc size, FREE_BLOCK_SIZE - i = m →
      fbl.length = FREE_BLOCK_SIZE → ptrs.length = 8 → alloc ≤ size → size ≤ 8 →
      (∀ a, fbl.getD a 1 = 0 → P a) →
      size - alloc ≤ (fbl.drop i).count 0 →
      (allocLoop fbl ptrs i alloc size).2.length = 8 ∧
        (∀ t, t < alloc → (allocLoop fbl ptrs i alloc size).2.getD t 0 = ptrs.getD t 0) ∧
        (∀ t, alloc ≤ t → t < size →
          i ≤ (allocLoop fbl ptrs i alloc size).2.getD t 0 ∧
            (allocLoop fbl ptrs i alloc size).2.getD t 0 < FREE_BLOCK_SIZE ∧
            P ((allocLoop fbl ptrs i alloc size).2.getD t 0)) := by
  intro m
  induction m with
  | zero =>
    intro fbl ptrs i alloc size hm hlen hptrs halloc hsize hP havail
    have hi : ¬(i < FREE_BLOCK_SIZE ∧ alloc < size) := by omega
    rw [allocLoop_eq, if_neg hi]
    have hdrop : fbl.drop i = [] := List.drop_eq_nil_of_le (by omega)
    rw [hdrop] at havail
    simp only [List.count_nil] at havail
    exact ⟨hptrs, fun t _ => rfl, fun t ht1 ht2 => by omega⟩
  | succ m ih =>
    intro fbl ptrs i alloc size hm hlen hptrs halloc hsize hP havail
    have hi : i < FREE_BLOCK_SIZE := by omega
    by_cases hcond : i < FREE_BLOCK_SIZE ∧ alloc < size
    · have hilen : i < fbl.length := by omega
      have hdropc : fbl.drop i = fbl.getD i 1 :: fbl.drop (i + 1) := by
        rw [List.getD_eq_getElem _ _ hilen]
        exact List.drop_eq_getElem_cons hilen
      rw [allocLoop_eq, if_pos hcond]
      by_cases hfree : fbl.getD i 1 = 0
      · rw [if_pos hfree]
        have havail' : size - (alloc + 1) ≤ ((fbl.set i 1).drop (i + 1)).count 0 := by
          rw [drop_set_high]
          rw [hdropc, List.count_cons] at havail
          simp only [hfree, beq_self_eq_true, if_true] at havail
          omega
        have hP' : ∀ a, (fbl.set i 1).getD a 1 = 0 → P a := by
          intro a ha
          by_cases hai : i = a
          · subst hai
            rw [getD_set_self _ _ _ _ (by omega)] at ha
            omega
          · rw [getD_set_ne _ _ _ _ _ hai] at ha
            exact hP a ha
        obtain ⟨c1, c2, c3⟩ := ih (fbl.set i 1) (ptrs.set alloc i) (i + 1) (alloc + 1) size
          (by omega) (by rw [List.length_set]; exact hlen) (by rw [List.length_set]; exact hptrs)
          (by omega) hsize hP' havail'
        refine ⟨c1, fun t ht => ?_, fun t ht1 ht2 => ?_⟩
        · rw [c2 t (by omega), getD_set_ne _ _ _ _ _ (by omega)]
        · by_cases het : t = alloc
          · rw [het, c2 alloc (by omega), getD_set_self _ _ _ _ (by omega)]
            exact ⟨by omega, hi, hP i hfree⟩
          · obtain ⟨e1, e2, e3⟩ := c3 t (by omega) ht2
            exact ⟨by omega, e2, e3⟩
      · rw [if_neg hfree]
        have havail' : size - alloc ≤ (fbl.drop (i + 1)).count 0 := by
          rw [hdropc, List.count_cons] at havail
          simp only [beq_iff_eq, if_neg hfree] at havail
          omega
        obtain ⟨c1, c2, c3⟩ := ih fbl ptrs (i + 1) alloc size (by omega) hlen hptrs
          halloc hsize hP havail'
        refine ⟨c1, c2, fun t ht1 ht2 => ?_⟩
        obtain ⟨e1, e2, e3⟩ := c3 t ht1 ht2
        exact ⟨by omega, e2, e3⟩
    · rw [allocLoop_eq, if_neg hcond]
      exact ⟨hptrs, fun t _ => rfl, fun t ht1 ht2 => by omega⟩

/-! ## Clear-loop specification -/

/-- Correctness of the `delete_file` flag-clearing loop: on success the
flag array keeps its length, zero entries stay zero, every pointer in
positions `[i, n)` ends up cleared, and entries hit by no pointer are
unchanged. -/
theorem clearLoop_spec :
    ∀ m fbl ptrs i n fbl', n - i = m → fbl.length = FREE_BLOCK_SIZE →
      clearLoop fbl ptrs i n = some fbl' →
      fbl'.length = fbl.length ∧
        (∀ a, fbl.getD a 1 = 0 → fbl'.getD a 1 = 0) ∧
        (∀ t, i ≤ t → t < n → fbl'.getD (ptrs.getD t 0) 1 = 0) ∧
        (∀ a, (∀ t, i ≤ t → t < n → ptrs.getD t 0 ≠ a) → fbl'.getD a 1 = fbl.getD a 1) := by
  intro m
  induction m with
  | zero =>
    intro fbl ptrs i n fbl' hm hlen h
    rw [clearLoop_eq, if_neg (by omega)] at h
    have := Option.some.inj h
    subst this
    exact ⟨rfl, fun a ha => ha, fun t ht1 ht2 => by omega, fun a _ => rfl⟩
  | succ m ih =>
    intro fbl ptrs i n fbl' hm hlen h
    have hin : i < n := by omega
    rw [clearLoop_eq, if_pos hin] at h
    by_cases h8 : i < 8
    · rw [if_pos h8] at h
      simp only at h
      by_cases hp : ptrs.getD i 0 < FREE_BLOCK_SIZE
      · rw [if_pos hp] at h
        obtain ⟨c1, c2, c3, c4⟩ := ih (fbl.set (ptrs.getD i 0) 0) ptrs (i + 1) n fbl'
          (by omega) (by rw [List.length_set]; exact hlen) h
        rw [List.length_set] at c1
        refine ⟨c1, fun a ha => ?_, fun t ht1 ht2 => ?_, fun a ha => ?_⟩
        · apply c2
          by_cases hai : ptrs.getD i 0 = a
          · subst hai
            rw [getD_set_self _ _ _ _ (by omega)]
          · rw [getD_set_ne _ _ _ _ _ hai]
            exact ha
        · rcases Nat.eq_or_lt_of_le ht1 with rfl | ht1'
          · apply c2
            rw [getD_set_self _ _ _ _ (by omega)]
          · exact c3 t ht1' ht2
        · rw [c4 a (fun t ht1 ht2 => ha t (by omega) ht2),
            getD_set_ne _ _ _ _ _ (ha i le_rfl hin)]
      · rw [if_neg hp] at h
        exact absurd h (by simp)
    · rw [if_neg h8] at h
      exact absurd h (by simp)

/-! ## Operation elimination and unfolding lemmas -/

/-- What a successful `create_file` tells us: the size was legal, enough
blocks were free, a free slot was found, and the result state is the two
writes of the source. -/
theorem create_file_ok_elim {d : Disk} {nm : List Nat} {s : Nat} {d' : Disk}
    (h : create_file d nm s = .ok d') :
    s ≤ 8 ∧ s ≤ countFree (getFreeBlockList d) ∧
    ∃ idx ino, findInode d usedIsZero = some (idx, ino) ∧
      d' = writeFreeBlockList
        (writeInodeAt d idx ⟨nm, s, (allocLoop (getFreeBlockList d) ino.block_pointers 0 0 s).2, 1⟩)
        (allocLoop (getFreeBlockList d) ino.block_pointers 0 0 s).1 := by
  unfold create_file at h
  by_cases h8 : s > 8
  · rw [if_pos h8] at h
    exact absurd h (by simp)
  · rw [if_neg h8] at h
    simp only at h
    by_cases hc : countFree (getFreeBlockList d) < s
    · rw [if_pos hc] at h
      exact absurd h (by simp)
    · rw [if_neg hc] at h
      cases hfind : findInode d usedIsZero with
      | none =>
        rw [hfind] at h
        exact absurd h (by simp)
      | some p =>
        obtain ⟨idx, ino⟩ := p
        rw [hfind] at h
        simp only at h
        exact ⟨by omega, by omega, idx, ino, rfl, (Except.ok.inj h).symm⟩

/-- What a successful `delete_file` tells us: a name match was found, the
flag-clearing loop completed without a panic, and the result state is the
two writes of the source. -/
theorem delete_file_ok_elim {d : Disk} {nm : List Nat} {d' : Disk}
    (h : delete_file d nm = some (.ok d')) :
    ∃ idx ino fbl', findInode d (nameMatches nm) = some (idx, ino) ∧
      clearLoop (getFreeBlockList d) ino.block_pointers 0 ino.size = some fbl' ∧
      d' = writeFreeBlockList (writeInodeAt d idx ⟨ino.name, ino.size, ino.block_pointers, 0⟩) fbl' := by
  unfold delete_file at h
  cases hfind : findInode d (nameMatches nm) with
  | none =>
    rw [hfind] at h
    simp only at h
    exact absurd h (by simp)
  | some p =>
    obtain ⟨idx, ino⟩ := p
    rw [hfind] at h
    simp only at h
    cases hclear : clearLoop (getFreeBlockList d) ino.block_pointers 0 ino.size with
    | none =>
      rw [hclear] at h
      exact absurd h (by simp)
    | some fbl' =>
      rw [hclear] at h
      simp only at h
      exact ⟨idx, ino, fbl', rfl, hclear, (Except.ok.inj (Option.some.inj h)).symm⟩

theorem read_eq_of_find {d : Disk} {nm : List Nat} {j : Nat} {ino : IDXNode} (bn : Nat)
    (hfind : findInode d (nameMatches nm) = some (j, ino)) :
    read d nm bn =
      if ino.size ≤ bn then some (.error (errOutOfRange bn ino.size))
      else if bn < 8 then
        some (.ok (readBytes d (blockOffset (ino.block_pointers.getD bn 0)) BLOCK_SIZE))
      else none := by
  unfold read
  rw [hfind]

theorem write_eq_of_find {d : Disk} {nm : List Nat} {j : Nat} {ino : IDXNode}
    (bn : Nat) (buf : List Nat)
    (hfind : findInode d (nameMatches nm) = some (j, ino)) :
    write d nm bn buf =
      if bn < 8 then
        some (.ok (writeBytes d (blockOffset (ino.block_pointers.getD bn 0)) BLOCK_SIZE buf))
      else none := by
  unfold write
  rw [hfind]

theorem myfsRead_eq_of_find {d : Disk} {nm : List Nat} {j : Nat} {ino : IDXNode} (bn : Nat)
    (hfind : findInode d (nameMatches nm) = some (j, ino)) :
    myfsRead d nm bn =
      if bn < 8 then
        some (some (readBytes d (blockOffset (ino.block_pointers.getD bn 0)) BLOCK_SIZE))
      else none := by
  unfold myfsRead
  rw [hfind]

/-! ## Free-block-list lemmas -/

theorem countFree_aux (l : List Nat) :
    ∀ acc, l.foldl (fun acc x => if x = 0 then acc + 1 else acc) acc = acc + l.count 0 := by
  induction l with
  | nil =>
    intro acc
    simp
  | cons x l ih =>
    intro acc
    simp only [List.foldl_cons, List.count_cons]
    rw [ih]
    by_cases hx : x = 0
    · simp [hx]
      omega
    · simp [hx]

/-- The fold in `create_file` counts the zero flags. -/
theorem countFree_eq_count (fbl : List Nat) : countFree fbl = fbl.count 0 := by
  unfold countFree
  rw [countFree_aux]
  omega

theorem getFreeBlockList_length (d : Disk) :
    (getFreeBlockList d).length = FREE_BLOCK_SIZE :=
  readBytes_length d 0 FREE_BLOCK_SIZE

theorem getFreeBlockList_getD (d : Disk) (a dv : Nat) (h : a < FREE_BLOCK_SIZE) :
    (getFreeBlockList d).getD a dv = d a := by
  unfold getFreeBlockList
  rw [readBytes_getD d 0 FREE_BLOCK_SIZE a dv h, Nat.zero_add]

theorem getFreeBlockList_writeFreeBlockList (d : Disk) (fbl : List Nat)
    (h : fbl.length = FREE_BLOCK_SIZE) :
    getFreeBlockList (writeFreeBlockList d fbl) = fbl :=
  readBytes_writeBytes d 0 FREE_BLOCK_SIZE fbl h

theorem getFreeBlockList_writeInodeAt (d : Disk) (k : Nat) (ino : IDXNode) :
    getFreeBlockList (writeInodeAt d k ino) = getFreeBlockList d := by
  apply readBytes_congr
  intro a h1 h2
  apply writeBytes_apply_outside
  unfold FREE_BLOCK_SIZE at h2
  unfold FREE_BLOCK_SIZE IDXNODE_SIZE
  omega

theorem getInode_writeFreeBlockList (d : Disk) (fbl : List Nat) (k : Nat) :
    getInode (writeFreeBlockList d fbl) k = getInode d k := by
  apply getInode_writeBytes_disjoint
  left
  unfold FREE_BLOCK_SIZE IDXNODE_SIZE
  omega

/-! ## `ls` specification -/

theorem lsFrom_spec (d : Disk) :
    ∀ m k, MAX_INODES - k = m →
      lsFrom d k =
        if ∀ j, j < MAX_INODES → k ≤ j → (getInode d j).used = 1 →
            validUtf8 (getInode d j).name = true then
          some ((List.range' k (MAX_INODES - k)).filterMap fun j =>
            if (getInode d j).used = 1 then some (getInode d j).name else none)
        else none := by
  intro m
  induction m with
  | zero =>
    intro k hm
    rw [lsFrom_eq, if_neg (by omega), if_pos (by intro j h1 h2; exfalso; omega), hm]
    simp
  | succ m ih =>
    intro k hm
    have hk : k < MAX_INODES := by omega
    have hm' : MAX_INODES - (k + 1) = m := by omega
    have hrange : List.range' k (MAX_INODES - k) = k :: List.range' (k + 1) (MAX_INODES - (k + 1)) := by
      rw [hm, hm', List.range'_succ]
    rw [lsFrom_eq, if_pos hk]
    simp only
    by_cases hu : (getInode d k).used = 1
    · rw [if_pos hu]
      by_cases hv : validUtf8 (getInode d k).name = true
      · rw [if_pos hv, ih (k + 1) (by omega)]
        by_cases hcond : ∀ j, j < MAX_INODES → k + 1 ≤ j → (getInode d j).used = 1 →
            validUtf8 (getInode d j).name = true
        · rw [if_pos hcond, if_pos ?side]
          case side =>
            intro j h1 h2 h3
            rcases Nat.eq_or_lt_of_le h2 with rfl | h2'
            · exact hv
            · exact hcond j h1 h2' h3
          rw [hrange, List.filterMap_cons]
          simp only [hu, if_pos rfl]
          rfl
        · rw [if_neg hcond, if_neg ?side2]
          · simp
          case side2 =>
            intro hc
            apply hcond
            intro j h1 h2 h3
            exact hc j h1 (by omega) h3
      · rw [if_neg hv, if_neg ?side3]
        case side3 =>
          intro hc
          exact hv (hc k hk le_rfl hu)
    · rw [if_neg hu, ih (k + 1) (by omega)]
      by_cases hcond : ∀ j, j < MAX_INODES → k + 1 ≤ j → (getInode d j).used = 1 →
          validUtf8 (getInode d j).name = true
      · rw [if_pos hcond, if_pos ?side4]
        case side4 =>
          intro j h1 h2 h3
          rcases Nat.eq_or_lt_of_le h2 with rfl | h2'
          · exact absurd h3 hu
          · exact hcond j h1 h2' h3
        rw [hrange, List.filterMap_cons]
        simp [hu]
      · rw [if_neg hcond, if_neg ?side5]
        case side5 =>
          intro hc
          apply hcond
          intro j h1 h2 h3
          exact hc j h1 (by omega) h3

/-- Closed form of `ls`: it succeeds exactly when every used slot's name
is valid UTF-8, in which case it yields the used names in ascending slot
order; otherwise the `unwrap` in the source panics. -/
theorem ls_spec (d : Disk) :
    ls d =
      if ∀ j, j < MAX_INODES → (getInode d j).used = 1 →
          validUtf8 (getInode d j).name = true then
        some (usedNames d)
      else none := by
  unfold ls
  rw [lsFrom_spec d MAX_INODES 0 rfl]
  rw [if_congr (Iff.intro (fun h j h1 h2 => h j h1 (Nat.zero_le j) h2)
    (fun h j h1 _ h2 => h j h1 h2)) rfl rfl]
  unfold usedNames
  rw [List.range_eq_range', Nat.sub_zero]

/-! ## Concrete states for witnesses and counterexamples -/

/-- The name `"f1"` padded to the 8-byte buffer, as `get_filename_array`
in `main.rs` would produce it. -/
def demoName : List Nat := [102, 49, 0, 0, 0, 0, 0, 0]

/-- Free-block list with blocks 0, 1, 2 allocated. -/
def fbl3 : List Nat := [1, 1, 1] ++ List.replicate 125 0

/-- Free-block list of a fresh image: only the reserved block 0 allocated. -/
def fullFbl : List Nat := 1 :: List.replicate 127 0

/-- The image after `create_file(demoName, 2)` on a fresh disk: slot 0
holds the file with blocks 1 and 2. -/
def demoDisk : Disk :=
  writeBytes
    (writeBytes freshDisk 128 48 (encodeInode ⟨demoName, 2, [1, 2, 0, 0, 0, 0, 0, 0], 1⟩))
    0 128 fbl3

/-! ## Claim C1 -/

/-- C1: `create_file` with `size > 8` fails with the InvalidSize error on
every disk state — in particular also on states with fewer than `size`
free blocks, so InvalidSize takes precedence over InsufficientSpace, and
no persisted state is touched (the error is returned before any write,
and before the free block list is even loaded). -/
theorem create_invalid_size_precedence (d : Disk) (filename : List Nat) (size : Nat)
    (h : 8 < size) : create_file d filename size = .error (errInvalidSize size) := by
  unfold create_file
  rw [if_pos h]

/-- Witness for C1 at the concrete input `size = 9` on a fresh disk. -/
theorem create_invalid_size_precedence_witness :
    8 < 9 ∧ create_file freshDisk demoName 9 = .error (errInvalidSize 9) :=
  ⟨by norm_num, create_invalid_size_precedence freshDisk demoName 9 (by norm_num)⟩

/-! ## Claim C2 -/

/-- C2: for an existing file (first inode whose name matches, with a
well-formed size `≤ 8`), `read` fails with the OutOfRange error exactly
when `block_num ≥ inode.size`, and succeeds (returning the 1024 bytes of
the resolved block) when `block_num < inode.size`. -/
theorem read_out_of_range_check (d : Disk) (nm : List Nat) (bn j : Nat) (ino : IDXNode)
    (hfind : findInode d (nameMatches nm) = some (j, ino)) (hsz : ino.size ≤ 8) :
    (ino.size ≤ bn → read d nm bn = some (.error (errOutOfRange bn ino.size))) ∧
    (bn < ino.size → read d nm bn =
      some (.ok (readBytes d (blockOffset (ino.block_pointers.getD bn 0)) BLOCK_SIZE))) := by
  constructor
  · intro hle
    rw [read_eq_of_find bn hfind, if_pos hle]
  · intro hlt
    rw [read_eq_of_find bn hfind, if_neg (by omega), if_pos (by omega)]

/-- Witness for C2 on `demoDisk` (file of size 2): index 5 is rejected,
index 1 succeeds. -/
theorem read_out_of_range_check_witness :
    read demoDisk demoName 5 = some (.error (errOutOfRange 5 2)) ∧
    read demoDisk demoName 1 = some (.ok (readBytes demoDisk (blockOffset 2) BLOCK_SIZE)) := by
  have hfind : findInode demoDisk (nameMatches demoName) =
      some (0, ⟨demoName, 2, [1, 2, 0, 0, 0, 0, 0, 0], 1⟩) := by decide
  exact ⟨(read_out_of_range_check demoDisk demoName 5 0 _ hfind (by norm_num)).1 (by norm_num),
    (read_out_of_range_check demoDisk demoName 1 0 _ hfind (by norm_num)).2 (by norm_num)⟩

/-! ## Claim C3 -/

/-- C3: `write` performs no bound check against `inode.size`: for an
existing file and any `block_num` with `inode.size ≤ block_num < 8`, the
write proceeds to the block named by `block_pointers[block_num]` and
reports success, while `read` rejects the same index with OutOfRange. -/
theorem write_missing_bound_check (d : Disk) (nm : List Nat) (bn : Nat) (buf : List Nat)
    (j : Nat) (ino : IDXNode)
    (hfind : findInode d (nameMatches nm) = some (j, ino))
    (hge : ino.size ≤ bn) (hlt : bn < 8) :
    write d nm bn buf =
      some (.ok (writeBytes d (blockOffset (ino.block_pointers.getD bn 0)) BLOCK_SIZE buf)) ∧
    read d nm bn = some (.error (errOutOfRange bn ino.size)) := by
  constructor
  · rw [write_eq_of_find bn buf hfind, if_pos hlt]
  · rw [read_eq_of_find bn hfind, if_pos hge]

/-- Witness for C3 on `demoDisk` (file of size 2) at index 5: the write
succeeds (landing on stale pointer entry 0), the read errors. -/
theorem write_missing_bound_check_witness :
    write demoDisk demoName 5 (List.replicate 1024 7) =
      some (.ok (writeBytes demoDisk (blockOffset 0) BLOCK_SIZE (List.replicate 1024 7))) ∧
    read demoDisk demoName 5 = some (.error (errOutOfRange 5 2)) := by
  have hfind : findInode demoDisk (nameMatches demoName) =
      some (0, ⟨demoName, 2, [1, 2, 0, 0, 0, 0, 0, 0], 1⟩) := by decide
  exact write_missing_bound_check demoDisk demoName 5 (List.replicate 1024 7) 0 _ hfind
    (by norm_num) (by norm_num)

/-! ## Claim C9 -/

/-- C9: for an existing file, `write` (and, in the `myfs.rs` draft
variant, `read`) with `block_num ≥ 8` panics on the out-of-bounds index
into the 8-entry `block_pointers` array (modelled as `none`), instead of
returning an error value. -/
theorem write_large_index_panics (d : Disk) (nm : List Nat) (bn : Nat) (buf : List Nat)
    (hfind : (findInode d (nameMatches nm)).isSome = true) (h8 : 8 ≤ bn) :
    write d nm bn buf = none ∧ myfsRead d nm bn = none := by
  obtain ⟨p, hp⟩ := Option.isSome_iff_exists.mp hfind
  obtain ⟨j, ino⟩ := p
  constructor
  · rw [write_eq_of_find bn buf hp, if_neg (by omega)]
  · rw [myfsRead_eq_of_find bn hp, if_neg (by omega)]

/-- Witness for C9 on `demoDisk` at index 8. -/
theorem write_large_index_panics_witness :
    write demoDisk demoName 8 (List.replicate 1024 0) = none ∧
    myfsRead demoDisk demoName 8 = none :=
  write_large_index_panics demoDisk demoName 8 (List.replicate 1024 0) (by decide) (by norm_num)

/-! ## Claim C10 -/

/-- C10: `ls` panics (modelled as `none`) exactly when some used inode's
8-byte name buffer is not valid UTF-8; when every used name is valid
UTF-8 it yields precisely the names of the used slots in ascending slot
order. -/
theorem ls_utf8_panic_or_names (d : Disk) :
    ls d =
      if ∀ j, j < MAX_INODES → (getInode d j).used = 1 →
          validUtf8 (getInode d j).name = true then
        some (usedNames d)
      else none :=
  ls_spec d

/-! ## Claim C8 -/

/-- The data-block placement the spec describes (§6): 128 data blocks
beginning immediately after the inode table, so block `b` would live at
absolute offset `128 + 16·R + b·1024` with `R = IDXNODE_SIZE`.  Stated
from the spec's words, to be compared with `blockOffset`, the offset the
code actually computes. -/
def specDataBlockOffset (b : Nat) : Nat :=
  FREE_BLOCK_SIZE + MAX_INODES * IDXNODE_SIZE + BLOCK_SIZE * b

/-- A backing store with distinct marker bytes at offset 1152
(`blockOffset 1`, what the code uses) and offset 1920
(`specDataBlockOffset 1`, what the spec claims). -/
def c8Base : Disk :=
  fun a => if a = 1152 then 7 else if a = 1920 then 9 else 0

/-- Disk `c8Base` with slot 0 holding a size-1 file whose single block
pointer is 1. -/
def c8Disk : Disk :=
  writeBytes
    (writeBytes c8Base 128 48 (encodeInode ⟨demoName, 1, [1, 0, 0, 0, 0, 0, 0, 0], 1⟩))
    0 128 ([1, 1] ++ List.replicate 126 0)

/-- C8 counterexample: `read` resolves block pointer 1 to byte offset
`blockOffset 1 = 1152 = 128 + 1·1024`, not to the spec's
`specDataBlockOffset 1 = 1920 = 128 + 16·48 + 1·1024`: on `c8Disk` the
returned block starts with the marker byte 7 planted at offset 1152,
while the byte at the spec's offset is the distinct marker 9. -/
theorem read_offset_counterexample :
    read c8Disk demoName 0 = some (.ok (readBytes c8Disk (blockOffset 1) BLOCK_SIZE)) ∧
    blockOffset 1 = 1152 ∧ specDataBlockOffset 1 = 1920 ∧
    (readBytes c8Disk (blockOffset 1) BLOCK_SIZE).getD 0 0 = 7 ∧
    (readBytes c8Disk (specDataBlockOffset 1) BLOCK_SIZE).getD 0 0 = 9 := by
  refine ⟨rfl, by decide, by decide, ?_, ?_⟩
  · rw [readBytes_getD _ _ _ _ _ (by norm_num [BLOCK_SIZE])]
    decide
  · rw [readBytes_getD _ _ _ _ _ (by norm_num [BLOCK_SIZE])]
    decide

/-- C8 amended: `read` and `write` resolve block pointer value `b` to
absolute byte offset `128 + 1024·b` (measured from the start of the
image, not from the end of the inode table) and transfer exactly 1024
bytes there. -/
theorem read_write_actual_offset (d : Disk) (nm : List Nat) (bn j : Nat) (ino : IDXNode)
    (buf : List Nat)
    (hfind : findInode d (nameMatches nm) = some (j, ino))
    (hlt : bn < ino.size) (hsz : ino.size ≤ 8) :
    read d nm bn =
      some (.ok (readBytes d (128 + 1024 * ino.block_pointers.getD bn 0) 1024)) ∧
    (readBytes d (128 + 1024 * ino.block_pointers.getD bn 0) 1024).length = 1024 ∧
    write d nm bn buf =
      some (.ok (writeBytes d (128 + 1024 * ino.block_pointers.getD bn 0) 1024 buf)) := by
  have hoff : blockOffset (ino.block_pointers.getD bn 0) =
      128 + 1024 * ino.block_pointers.getD bn 0 := rfl
  refine ⟨?_, readBytes_length _ _ _, ?_⟩
  · rw [read_eq_of_find bn hfind, if_neg (by omega), if_pos (by omega), hoff]
    rfl
  · rw [write_eq_of_find bn buf hfind, if_pos (by omega), hoff]
    rfl

/-- Witness for the amended C8 on `demoDisk` at index 1 (pointer 2):
offset `128 + 2048`. -/
theorem read_write_actual_offset_witness :
    read demoDisk demoName 1 = some (.ok (readBytes demoDisk (128 + 1024 * 2) 1024)) ∧
    (readBytes demoDisk (128 + 1024 * 2) 1024).length = 1024 ∧
    write demoDisk demoName 1 (List.replicate 1024 7) =
      some (.ok (writeBytes demoDisk (128 + 1024 * 2) 1024 (List.replicate 1024 7))) := by
  have hfind : findInode demoDisk (nameMatches demoName) =
      some (0, ⟨demoName, 2, [1, 2, 0, 0, 0, 0, 0, 0], 1⟩) := by decide
  exact read_write_actual_offset demoDisk demoName 1 0 _ (List.replicate 1024 7) hfind
    (by norm_num) (by norm_num)

/-! ## Claim C6 -/

/-- The 8-byte name `"aaaaaaaa"` (valid UTF-8). -/
def dupName : List Nat := [97, 97, 97, 97, 97, 97, 97, 97]

/-- State after `create_file(dupName, 0)` on a fresh image: slot 0 used. -/
def dupD1 : Disk :=
  writeBytes (writeBytes freshDisk 128 48 (encodeInode ⟨dupName, 0, List.replicate 8 0, 1⟩))
    0 128 fullFbl

/-- State after a second `create_file(dupName, 0)`: slots 0 and 1 both
carry `dupName`. -/
def dupD2 : Disk :=
  writeBytes (writeBytes dupD1 176 48 (encodeInode ⟨dupName, 0, List.replicate 8 0, 1⟩))
    0 128 fullFbl

/-- State after `delete_file(dupName)` on `dupD2`: only slot 0 (the first
match) was cleared. -/
def dupD3 : Disk :=
  writeBytes (writeBytes dupD2 128 48 (encodeInode ⟨dupName, 0, List.replicate 8 0, 0⟩))
    0 128 fullFbl

/-- C6 counterexample: when two inodes carry the same name, a completed
`delete_file(name)` removes only the first match, and `list()` still
yields `name` afterwards — refuting the claim's "including when more
than one inode carried that name" clause. -/
theorem delete_duplicate_name_counterexample :
    create_file freshDisk dupName 0 = .ok dupD1 ∧
    create_file dupD1 dupName 0 = .ok dupD2 ∧
    delete_file dupD2 dupName = some (.ok dupD3) ∧
    ls dupD3 = some [dupName] :=
  ⟨rfl, rfl, rfl, by decide⟩

/-- C6 amended: a completed `delete_file(name)` clears the first
name-matching inode and marks each of its `size` blocks free; provided
no *other* used inode carries `name`, `list()` afterwards never yields
`name`. -/
theorem delete_first_match_spec (d : Disk) (nm : List Nat) (d' : Disk)
    (j : Nat) (ino : IDXNode)
    (hfind : findInode d (nameMatches nm) = some (j, ino))
    (hunique : ∀ k, k < MAX_INODES → k ≠ j → (getInode d k).used = 1 → (getInode d k).name ≠ nm)
    (hdel : delete_file d nm = some (.ok d')) :
    (∀ l, ls d' = some l → nm ∉ l) ∧
    (∀ t, t < ino.size → (getFreeBlockList d').getD (ino.block_pointers.getD t 0) 1 = 0) := by
  obtain ⟨j', ino', fbl', hfind', hclear, hd'⟩ := delete_file_ok_elim hdel
  rw [hfind] at hfind'
  have hpair : (j, ino) = (j', ino') := Option.some.inj hfind'
  have hj : j' = j := (congrArg Prod.fst hpair).symm
  have hino : ino' = ino := (congrArg Prod.snd hpair).symm
  rw [hino] at hd' hclear
  rw [hj] at hd'
  obtain ⟨c1, c2, c3, c4⟩ := clearLoop_spec ino.size (getFreeBlockList d)
    ino.block_pointers 0 ino.size fbl' (by omega) (getFreeBlockList_length d) hclear
  have hfbl'len : fbl'.length = FREE_BLOCK_SIZE := by
    rw [c1, getFreeBlockList_length]
  have hfblr : getFreeBlockList d' = fbl' := by
    rw [hd', getFreeBlockList_writeFreeBlockList _ _ hfbl'len]
  have hslotj : getInode d' j = decodeInode (encodeInode ⟨ino.name, ino.size, ino.block_pointers, 0⟩) := by
    rw [hd', getInode_writeFreeBlockList, getInode_writeInodeAt_self]
  have hslotk : ∀ k, k < MAX_INODES → k ≠ j → getInode d' k = getInode d k := by
    intro k hk hkj
    rw [hd', getInode_writeFreeBlockList]
    apply getInode_writeBytes_disjoint
    have e1 : FREE_BLOCK_SIZE = 128 := rfl
    have e2 : IDXNODE_SIZE = 48 := rfl
    rcases Nat.lt_or_ge k j with h | h
    · right
      simp only [e1, e2]
      omega
    · left
      simp only [e1, e2]
      omega
  constructor
  · intro l hls hmem
    rw [ls_spec] at hls
    by_cases hcond : ∀ j, j < MAX_INODES → (getInode d' j).used = 1 →
        validUtf8 (getInode d' j).name = true
    · rw [if_pos hcond] at hls
      have hl : l = usedNames d' := (Option.some.inj hls).symm
      subst hl
      unfold usedNames at hmem
      rw [List.mem_filterMap] at hmem
      obtain ⟨k, hk, hket⟩ := hmem
      rw [List.mem_range] at hk
      by_cases hused : (getInode d' k).used = 1
      · rw [if_pos hused] at hket
        have hname : (getInode d' k).name = nm := Option.some.inj hket
        by_cases hkj : k = j
        · subst hkj
          rw [hslotj, decode_encode_used] at hused
          simp at hused
        · rw [hslotk k hk hkj] at hused hname
          exact hunique k hk hkj hused hname
      · rw [if_neg hused] at hket
        exact absurd hket (by simp)
    · rw [if_neg hcond] at hls
      exact absurd hls (by simp)
  · intro t ht
    rw [hfblr]
    exact c3 t (Nat.zero_le t) ht

/-- The single-file state for the C6 witness: slot 0 holds `dupName`
with blocks 1 and 2. -/
def delD : Disk :=
  writeBytes (writeBytes freshDisk 128 48 (encodeInode ⟨dupName, 2, [1, 2, 0, 0, 0, 0, 0, 0], 1⟩))
    0 128 fbl3

/-- State after `delete_file(dupName)` on `delD`. -/
def delD' : Disk :=
  writeBytes (writeBytes delD 128 48 (encodeInode ⟨dupName, 2, [1, 2, 0, 0, 0, 0, 0, 0], 0⟩))
    0 128 fullFbl

/-- Witness for the amended C6: deleting the unique file on `delD` frees
its first block (flag 1 cleared) and the listing no longer contains the
name. -/
theorem delete_first_match_spec_witness :
    (getFreeBlockList delD').getD 1 1 = 0 ∧ dupName ∉ ([] : List (List Nat)) := by
  have hfind : findInode delD (nameMatches dupName) =
      some (0, ⟨dupName, 2, [1, 2, 0, 0, 0, 0, 0, 0], 1⟩) := by decide
  have h := delete_first_match_spec delD dupName delD' 0 _ hfind (by decide) rfl
  exact ⟨h.2 0 (by norm_num), h.1 [] (by decide)⟩

/-! ## Claim C7 -/

/-- The distinct 8-byte names `"k0"`, `"k1"`, …, `"k:"` used in the
17-file scenario. -/
def seqName (k : Nat) : List Nat := [107, 48 + k, 0, 0, 0, 0, 0, 0]

/-- The image after the first `k` zero-size creations on a fresh disk:
slots `0, …, k-1` used, free-block list untouched. -/
def seqState (k : Nat) : Disk :=
  (List.range k).foldl
    (fun d j =>
      writeBytes (writeBytes d (128 + 48 * j) 48
        (encodeInode ⟨seqName j, 0, List.replicate 8 0, 1⟩)) 0 128 fullFbl)
    freshDisk

/-- C7: on a fresh image, sixteen zero-size creations with distinct
names all succeed (the `k`-th landing in slot `k`), and the seventeenth
fails with the NoFreeInode error because the ascending scan finds no slot
with `used == 0` — all sixteen slots are used; the failing call returns
the error without any write. -/
theorem inode_capacity_sixteen :
    (∀ k, k < 16 → create_file (seqState k) (seqName k) 0 = .ok (seqState (k + 1))) ∧
    create_file (seqState 16) (seqName 16) 0 = .error errNoFind ∧
    findInode (seqState 16) usedIsZero = none ∧
    (∀ k, k < 16 → (getInode (seqState 16) k).used = 1) ∧
    (∀ k1, k1 < 17 → ∀ k2, k2 < 17 → k1 ≠ k2 → seqName k1 ≠ seqName k2) := by
  refine ⟨?_, rfl, by decide, by decide, by decide⟩
  intro k hk
  interval_cases k <;> rfl

/-- Witness for C7: the fourth creation, applied concretely. -/
theorem inode_capacity_sixteen_witness :
    create_file (seqState 3) (seqName 3) 0 = .ok (seqState 4) :=
  inode_capacity_sixteen.1 3 (by norm_num)

/-! ## Claim C5 -/

/-- Names used in the overlap scenario. -/
def c5X : List Nat := [88, 0, 0, 0, 0, 0, 0, 0]

/-- Name `"A"` in the overlap scenario. -/
def c5A : List Nat := [65, 0, 0, 0, 0, 0, 0, 0]

/-- Name `"B"` in the overlap scenario. -/
def c5B : List Nat := [66, 0, 0, 0, 0, 0, 0, 0]

/-- Name `"C"` in the overlap scenario. -/
def c5C : List Nat := [67, 0, 0, 0, 0, 0, 0, 0]

/-- After `create X 0`: slot 0 = X (size 0). -/
def c5D1 : Disk :=
  writeBytes (writeBytes freshDisk 128 48 (encodeInode ⟨c5X, 0, List.replicate 8 0, 1⟩))
    0 128 fullFbl

/-- After `create A 2`: slot 1 = A with blocks 1, 2. -/
def c5D2 : Disk :=
  writeBytes (writeBytes c5D1 176 48 (encodeInode ⟨c5A, 2, [1, 2, 0, 0, 0, 0, 0, 0], 1⟩))
    0 128 fbl3

/-- After `delete X`: slot 0 stale (name X, unused). -/
def c5D3 : Disk :=
  writeBytes (writeBytes c5D2 128 48 (encodeInode ⟨c5X, 0, List.replicate 8 0, 0⟩))
    0 128 fbl3

/-- After `delete A`: slot 1 stale (name A, pointers 1, 2, unused);
blocks 1, 2 free again. -/
def c5D4 : Disk :=
  writeBytes (writeBytes c5D3 176 48 (encodeInode ⟨c5A, 2, [1, 2, 0, 0, 0, 0, 0, 0], 0⟩))
    0 128 fullFbl

/-- After `create B 2`: B reuses slot 0 and is assigned blocks 1, 2;
the stale record named A survives in slot 1. -/
def c5D5 : Disk :=
  writeBytes (writeBytes c5D4 128 48 (encodeInode ⟨c5B, 2, [1, 2, 0, 0, 0, 0, 0, 0], 1⟩))
    0 128 fbl3

/-- After the second `delete A`: the lookup matches the *stale* slot 1
(the `used` flag is not consulted) and frees blocks 1 and 2 — which B,
alive in slot 0, still owns. -/
def c5D6 : Disk :=
  writeBytes (writeBytes c5D5 176 48 (encodeInode ⟨c5A, 2, [1, 2, 0, 0, 0, 0, 0, 0], 0⟩))
    0 128 fullFbl

/-- After `create C 2`: C is assigned blocks 1 and 2 again, overlapping
the live file B. -/
def c5D7 : Disk :=
  writeBytes (writeBytes c5D6 176 48 (encodeInode ⟨c5C, 2, [1, 2, 0, 0, 0, 0, 0, 0], 1⟩))
    0 128 fbl3

/-- C5: the block-disjointness invariant is violated by a reachable
sequence of successful operations.  Starting from a fresh image, the
sequence `create X 0; create A 2; delete X; delete A; create B 2;
delete A; create C 2` completes entirely with success results, yet
afterwards the used inodes in slots 0 (file B) and 1 (file C) both list
blocks 1 and 2 among their meaningful pointers — two successfully
created files with combined requirement 4 ≤ 128 sharing both their
blocks.  The slip: `delete_file`'s lookup matches on the name alone, so
the second `delete A` resurrects a stale unused record and frees blocks
owned by the live file B. -/
theorem create_delete_block_overlap_bug :
    create_file freshDisk c5X 0 = .ok c5D1 ∧
    create_file c5D1 c5A 2 = .ok c5D2 ∧
    delete_file c5D2 c5X = some (.ok c5D3) ∧
    delete_file c5D3 c5A = some (.ok c5D4) ∧
    create_file c5D4 c5B 2 = .ok c5D5 ∧
    delete_file c5D5 c5A = some (.ok c5D6) ∧
    create_file c5D6 c5C 2 = .ok c5D7 ∧
    (getInode c5D7 0).used = 1 ∧ (getInode c5D7 1).used = 1 ∧
    (getInode c5D7 0).name = c5B ∧ (getInode c5D7 1).name = c5C ∧
    (getInode c5D7 0).size = 2 ∧ (getInode c5D7 1).size = 2 ∧
    (getInode c5D7 0).block_pointers.getD 0 0 = 1 ∧
    (getInode c5D7 1).block_pointers.getD 0 0 = 1 ∧
    (getInode c5D7 0).block_pointers.getD 1 0 = 2 ∧
    (getInode c5D7 1).block_pointers.getD 1 0 = 2 :=
  ⟨rfl, rfl, rfl, rfl, rfl, rfl, rfl, by decide, by decide, by decide, by decide,
    by decide, by decide, by decide, by decide, by decide, by decide⟩

/-! ## Claim C4 -/

theorem decodeInode_ptrs_length (b : List Nat) : (decodeInode b).block_pointers.length = 8 := by
  simp [decodeInode]

theorem getInode_ptrs_length (d : Disk) (k : Nat) :
    (getInode d k).block_pointers.length = 8 :=
  decodeInode_ptrs_length _

/-- After a successful `create_file` of a name not previously present in
any slot (on a state whose reserved flag byte 0 is set, as on every
image descending from a fresh one), the name lookup finds the created
inode: its stored size is `s` and every meaningful block pointer lies in
`[1, 128)` — in particular clear of the metadata bytes `[0, 896)`. -/
theorem create_file_find_created (d : Disk) (nm : List Nat) (s : Nat) (d' : Disk)
    (h0 : d 0 ≠ 0)
    (hname8 : nm.length = 8) (hnameB : ∀ b ∈ nm, b < 256)
    (hfresh : ∀ k, k < MAX_INODES → (getInode d k).name ≠ nm)
    (hc : create_file d nm s = .ok d') :
    ∃ idx inoC, findInode d' (nameMatches nm) = some (idx, inoC) ∧
      inoC.size = s ∧
      ∀ t, t < s → 1 ≤ inoC.block_pointers.getD t 0 ∧
        inoC.block_pointers.getD t 0 < FREE_BLOCK_SIZE := by
  obtain ⟨hs8, hcnt, idx, ino, hfind, hd'⟩ := create_file_ok_elim hc
  obtain ⟨hidx16, hinoeq, hused, hprev⟩ := findInode_some_elim d usedIsZero idx ino hfind
  have hP : ∀ a, (getFreeBlockList d).getD a 1 = 0 → a ≠ 0 := by
    intro a ha haz
    subst haz
    rw [getFreeBlockList_getD d 0 1 (by norm_num [FREE_BLOCK_SIZE])] at ha
    exact h0 ha
  have havail : s - 0 ≤ ((getFreeBlockList d).drop 0).count 0 := by
    rw [List.drop_zero, ← countFree_eq_count]
    omega
  have hptrs8 : ino.block_pointers.length = 8 := by
    rw [hinoeq]
    exact getInode_ptrs_length d idx
  obtain ⟨a1, a2, a3⟩ := allocLoop_spec (fun a => a ≠ 0) FREE_BLOCK_SIZE
    (getFreeBlockList d) ino.block_pointers 0 0 s (by omega)
    (getFreeBlockList_length d) hptrs8 (Nat.zero_le s) hs8 hP havail
  have hgot : getInode d' idx =
      decodeInode (encodeInode
        ⟨nm, s, (allocLoop (getFreeBlockList d) ino.block_pointers 0 0 s).2, 1⟩) := by
    rw [hd', getInode_writeFreeBlockList, getInode_writeInodeAt_self]
  have hname : (getInode d' idx).name = nm := by
    rw [hgot, decode_encode_name _ hname8 hnameB]
  have hsize : (getInode d' idx).size = s := by
    rw [hgot, decode_encode_size]
    exact Nat.mod_eq_of_lt (by show s < 256; omega)
  have hsameSlots : ∀ k, k < MAX_INODES → k ≠ idx → getInode d' k = getInode d k := by
    intro k hk hkidx
    rw [hd', getInode_writeFreeBlockList]
    apply getInode_writeBytes_disjoint
    have e1 : FREE_BLOCK_SIZE = 128 := rfl
    have e2 : IDXNODE_SIZE = 48 := rfl
    rcases Nat.lt_or_ge k idx with h | h
    · right
      simp only [e1, e2]
      omega
    · left
      simp only [e1, e2]
      omega
  have hfind2 : findInode d' (nameMatches nm) = some (idx, getInode d' idx) := by
    apply findInode_some_intro d' (nameMatches nm) idx hidx16
    · unfold nameMatches
      simp only [hname]
      simp
    · intro t ht
      unfold nameMatches
      simp only [hsameSlots t (by omega) (by omega)]
      rw [beq_eq_false_iff_ne]
      exact hfresh t (by omega)
  refine ⟨idx, getInode d' idx, hfind2, hsize, ?_⟩
  intro t ht
  have ht8 : t < 8 := by omega
  have e1 : FREE_BLOCK_SIZE = 128 := rfl
  obtain ⟨b1, b2, b3⟩ := a3 t (Nat.zero_le t) ht
  have hptr : (getInode d' idx).block_pointers.getD t 0 =
      (allocLoop (getFreeBlockList d) ino.block_pointers 0 0 s).2.getD t 0 := by
    rw [hgot, decode_encode_ptr _ t ht8 (by
      show (allocLoop (getFreeBlockList d) ino.block_pointers 0 0 s).2.getD t 0 < 4294967296
      omega)]
  rw [hptr]
  exact ⟨by omega, b2⟩

/-- C4: round trip.  For a file created with size `s` under a name not
otherwise present, for every index `i < s` and every 1024-byte payload,
`write(name, i, payload)` succeeds and a subsequent `read(name, i)`
returns exactly `payload`, byte for byte. -/
theorem create_write_read_roundtrip (d : Disk) (nm : List Nat) (s i : Nat)
    (payload : List Nat) (d' : Disk)
    (h0 : d 0 ≠ 0) (hname8 : nm.length = 8) (hnameB : ∀ b ∈ nm, b < 256)
    (hfresh : ∀ k, k < MAX_INODES → (getInode d k).name ≠ nm)
    (hc : create_file d nm s = .ok d')
    (hi : i < s) (hlen : payload.length = BLOCK_SIZE) :
    ∃ d2, write d' nm i payload = some (.ok d2) ∧ read d2 nm i = some (.ok payload) := by
  obtain ⟨idx, inoC, hfind, hsize, hptrs⟩ :=
    create_file_find_created d nm s d' h0 hname8 hnameB hfresh hc
  have hs8 : s ≤ 8 := (create_file_ok_elim hc).1
  obtain ⟨hp1, hp2⟩ := hptrs i hi
  have hi8 : i < 8 := by omega
  refine ⟨writeBytes d' (blockOffset (inoC.block_pointers.getD i 0)) BLOCK_SIZE payload, ?_, ?_⟩
  · rw [write_eq_of_find i payload hfind, if_pos hi8]
  · have e1 : FREE_BLOCK_SIZE = 128 := rfl
    have e2 : IDXNODE_SIZE = 48 := rfl
    have e3 : BLOCK_SIZE = 1024 := rfl
    have e4 : MAX_INODES = 16 := rfl
    have hlow : 1152 ≤ blockOffset (inoC.block_pointers.getD i 0) := by
      unfold blockOffset
      simp only [e1, e3]
      omega
    have hcongr : ∀ k, k < MAX_INODES →
        getInode (writeBytes d' (blockOffset (inoC.block_pointers.getD i 0)) BLOCK_SIZE payload) k =
          getInode d' k := by
      intro k hk
      apply getInode_writeBytes_disjoint
      right
      simp only [e1, e2]
      omega
    have hfind2 : findInode
        (writeBytes d' (blockOffset (inoC.block_pointers.getD i 0)) BLOCK_SIZE payload)
        (nameMatches nm) = some (idx, inoC) := by
      rw [findInode_congr _ d' (nameMatches nm) hcongr]
      exact hfind
    rw [read_eq_of_find i hfind2, if_neg (by omega), if_pos hi8,
      readBytes_writeBytes _ _ _ _ hlen]

/-- Witness for C4: create a size-2 file on the fresh image, write 1024
bytes of value 69 to index 0, read them back verbatim. -/
theorem create_write_read_roundtrip_witness :
    ∃ d2, write demoDisk demoName 0 (List.replicate 1024 69) = some (.ok d2) ∧
      read d2 demoName 0 = some (.ok (List.replicate 1024 69)) :=
  create_write_read_roundtrip freshDisk demoName 2 0 (List.replicate 1024 69) demoDisk
    (by decide) (by decide) (by decide) (by decide) rfl (by norm_num) (by decide)

end MyFs
